import Mathlib

/-!
Shallow embedding of the gyxy MITM proxy (github.com/mohamedbeat/gyxy) and
verification of its specification claims.

The repository contains two generations of the connection-handling code:

* the refactored `proxy` package (`proxy/http.go`, `proxy/types.go`, and the
  unnamed proxy-package file holding `handleHTTPS`, `establishMITMTunnel`,
  `tunnelConnections`, `parseResponse`, `checkHost`, `handleConnection`);
* the legacy monolithic `main.go` (raw CONNECT tunnel with 502 on dial
  failure and `CloseWrite` half-close).

Byte streams are modelled as `List Char` (Go strings are byte strings here;
all the relevant data is ASCII).  Network effects are modelled as traces of
events; fallible environment interactions (dials, TLS handshakes, the
blocklist file) are oracle parameters.  Client/origin writes are modelled as
events that always occur when the code attempts them; a failed write is an
oracle that truncates the trace afterwards exactly where the Go code
`return`s.
-/

abbrev Str := List Char

/-- ASCII lower-casing, the fragment of Go `strings.EqualFold` relevant to
DNS host names (the proxy compares host names, which are ASCII). -/
def toLowerAscii (c : Char) : Char :=
  if 'A' ≤ c ∧ c ≤ 'Z' then Char.ofNat (c.toNat + 32) else c

/-- Embeds Go `strings.EqualFold` on ASCII data. -/
def eqFold (a b : Str) : Bool :=
  decide (a.map toLowerAscii = b.map toLowerAscii)

/-- Characters trimmed by Go `strings.TrimSpace` (ASCII fragment). -/
def isGoSpace (c : Char) : Bool :=
  c = ' ' || c = '\t' || c = '\n' || c = '\r' ||
    c = Char.ofNat 11 || c = Char.ofNat 12

/-- Embeds Go `strings.TrimSpace`. -/
def trimSpace (s : Str) : Str :=
  ((s.dropWhile isGoSpace).reverse.dropWhile isGoSpace).reverse

/-- Embeds Go `strings.Split(s, sep)` for a one-byte separator:
the list of maximal separator-free segments (`n+1` segments for `n`
separators). -/
def goSplit (sep : Char) : Str → List Str
  | [] => [[]]
  | c :: rest =>
    let r := goSplit sep rest
    if c = sep then [] :: r
    else (c :: r.headD []) :: r.tail

/-- Embeds Go `strings.SplitN(s, sep, 2)`: at most two segments, the second
being everything after the first separator. -/
def goSplitN2 (sep : Char) (s : Str) : List Str :=
  if sep ∈ s then [s.takeWhile (· != sep), (s.dropWhile (· != sep)).tail]
  else [s]

/-- Embeds Go `strings.Join(parts, " ")`. -/
def joinSpace (parts : List Str) : Str :=
  List.intercalate [' '] parts

/-- Embeds Go `bufio.Reader.ReadString('\n')`: returns the bytes up to and
including the first newline, the unread remainder, and whether a newline was
found.  `false` in the last component corresponds to Go returning the
partial data together with `io.EOF`. -/
def readStringNL : Str → Str × Str × Bool
  | [] => ([], [], false)
  | c :: rest =>
    if c = '\n' then ([c], rest, true)
    else
      let (l, r, ok) := readStringNL rest
      (c :: l, r, ok)

theorem goSplit_ne_nil (sep : Char) (s : Str) : goSplit sep s ≠ [] := by
  cases s with
  | nil => simp [goSplit]
  | cons c rest =>
    simp only [goSplit]
    split <;> simp

theorem goSplit_headD (sep : Char) (s : Str) :
    (goSplit sep s).headD [] = s.takeWhile (· != sep) := by
  induction s with
  | nil => simp [goSplit]
  | cons c rest ih =>
    by_cases h : c = sep
    · subst h
      simp [goSplit, List.takeWhile_cons]
    · have hb : (c != sep) = true := by simp [bne, h]
      have hne := goSplit_ne_nil sep rest
      cases hr : goSplit sep rest with
      | nil => exact absurd hr hne
      | cons a l =>
        have ih' := ih
        rw [hr] at ih'
        simp only [List.headD_cons] at ih'
        simp [goSplit, hr, h, List.takeWhile_cons, hb, ih']

theorem goSplit_length_ge_two (sep : Char) (s : Str) (h : sep ∈ s) :
    2 ≤ (goSplit sep s).length := by
  induction s with
  | nil => simp at h
  | cons c rest ih =>
    by_cases hc : c = sep
    · subst hc
      have hne := goSplit_ne_nil c rest
      have h1 : 1 ≤ (goSplit c rest).length := List.length_pos.mpr hne
      simp only [goSplit, if_true, List.length_cons]
      omega
    · have hmem : sep ∈ rest := by
        cases List.mem_cons.mp h with
        | inl h' => exact absurd h'.symm hc
        | inr h' => exact h'
      have h2 := ih hmem
      have hne := goSplit_ne_nil sep rest
      simp only [goSplit, if_neg hc]
      cases hr : goSplit sep rest with
      | nil => exact absurd hr hne
      | cons a l =>
        rw [hr] at h2
        simp only [List.length_cons] at h2 ⊢
        simp only [List.tail_cons, List.length_cons]
        omega

theorem goSplit_getD_one (sep : Char) (s : Str) (h : sep ∈ s) :
    (goSplit sep s).getD 1 [] =
      ((s.dropWhile (· != sep)).tail).takeWhile (· != sep) := by
  induction s with
  | nil => simp at h
  | cons c rest ih =>
    by_cases hc : c = sep
    · subst hc
      have hhead := goSplit_headD c rest
      simp only [goSplit, if_pos rfl, List.dropWhile_cons]
      simp only [bne_self_eq_false, Bool.false_eq_true, if_false, List.tail_cons]
      cases hr : goSplit c rest with
      | nil => exact absurd hr (goSplit_ne_nil c rest)
      | cons a l =>
        rw [hr] at hhead
        simpa [List.getD] using hhead
    · have hmem : sep ∈ rest := by
        cases List.mem_cons.mp h with
        | inl h' => exact absurd h'.symm hc
        | inr h' => exact h'
      have hne := goSplit_ne_nil sep rest
      have hb : (c != sep) = true := by simp [bne, hc]
      simp only [goSplit, if_neg hc, List.dropWhile_cons, hb, if_true]
      rw [← ih hmem]
      cases hr : goSplit sep rest with
      | nil => exact absurd hr hne
      | cons a l => simp [List.getD]

theorem readStringNL_append (s : Str) :
    (readStringNL s).1 ++ (readStringNL s).2.1 = s := by
  induction s with
  | nil => simp [readStringNL]
  | cons c rest ih =>
    simp only [readStringNL]
    by_cases h : c = '\n'
    · simp [h]
    · simp only [if_neg h]
      simpa using ih

theorem readStringNL_eof_rest (s : Str)
    (h : (readStringNL s).2.2 = false) : (readStringNL s).2.1 = [] := by
  induction s with
  | nil => simp [readStringNL]
  | cons c rest ih =>
    simp only [readStringNL] at h ⊢
    by_cases hc : c = '\n'
    · simp [hc] at h
    · simp only [if_neg hc] at h ⊢
      exact ih h

theorem readStringNL_eof_no_nl (s : Str)
    (h : (readStringNL s).2.2 = false) : '\n' ∉ (readStringNL s).1 := by
  induction s with
  | nil => simp [readStringNL]
  | cons c rest ih =>
    simp only [readStringNL] at h ⊢
    by_cases hc : c = '\n'
    · simp [hc] at h
    · simp only [if_neg hc] at h ⊢
      intro hmem
      cases List.mem_cons.mp hmem with
      | inl h' => exact hc h'.symm
      | inr h' => exact ih h h'

theorem readStringNL_ok_ne_nil (s : Str)
    (h : (readStringNL s).2.2 = true) : (readStringNL s).1 ≠ [] := by
  cases s with
  | nil => simp [readStringNL] at h
  | cons c rest =>
    simp only [readStringNL]
    by_cases hc : c = '\n'
    · simp [hc]
    · simp only [if_neg hc]
      simp

theorem readStringNL_ok_shorter (s : Str)
    (h : (readStringNL s).2.2 = true) :
    (readStringNL s).2.1.length < s.length := by
  have happ := readStringNL_append s
  have hne := readStringNL_ok_ne_nil s h
  have hlen : (readStringNL s).1.length + (readStringNL s).2.1.length
      = s.length := by
    conv_rhs => rw [← happ]
    rw [List.length_append]
  have hpos : 1 ≤ (readStringNL s).1.length := by
    cases hl : (readStringNL s).1 with
    | nil => exact absurd hl hne
    | cons a l => simp
  omega

/-! ## HTTP request codec (proxy/http.go `parseRequest`) -/

structure HTTPRequest where
  method : Str := []
  path : Str := []
  protocol : Str := []
  port : Str := []
  host : Str := []
  userAgent : Str := []
  proxyConnection : Str := []
  raw : Str := []
deriving Repr, DecidableEq

/-- Embeds the `Host` header handling inside `parseRequest`: the header value
is split on every ":", the host is segment 0 and, when more than one segment
exists, the port is segment 1 (otherwise the port keeps its previous,
default, value). -/
def parseHostPort (value : Str) (defPort : Str) : Str × Str :=
  let hp := goSplit ':' value
  (hp.headD [], if 1 < hp.length then hp.getD 1 [] else defPort)

/-- Embeds one iteration of the header `switch` in `parseRequest`:
split the line on the first ":", trim key and value, and update the
recognized structured fields (`Host`, `User-Agent`, `Proxy-Connection`). -/
def processRequestHeaderLine (acc : HTTPRequest) (line : Str) : HTTPRequest :=
  match goSplitN2 ':' line with
  | [k0, v0] =>
    let key := trimSpace k0
    let value := trimSpace v0
    if key = ("Host".data) then
      let hp := parseHostPort value acc.port
      { acc with host := hp.1, port := hp.2 }
    else if key = ("User-Agent".data) then { acc with userAgent := value }
    else if key = ("Proxy-Connection".data) then { acc with proxyConnection := value }
    else acc
  | _ => acc

/-- Embeds the header-reading loop of `parseRequest`: read lines until a line
equal to CRLF; append each complete line to `raw`; on EOF break WITHOUT
appending the partial line (Go checks `err != nil` before
`raw.WriteString(line)`).  `fuel` bounds the recursion and is always
instantiated above the input length, which makes it inexhaustible. -/
def parseReqHeaders (fuel : Nat) (acc : HTTPRequest) (s : Str) :
    HTTPRequest × Str :=
  match fuel with
  | 0 => (acc, s)
  | fuel + 1 =>
    let (line, r, ok) := readStringNL s
    if ok = false then (acc, r)
    else
      let acc' := { acc with raw := acc.raw ++ line }
      if line = ('\r' :: '\n' :: []) then (acc', r)
      else parseReqHeaders fuel (processRequestHeaderLine acc' line) r

/-- Embeds `parseRequest` in proxy/http.go: read the request line (an error,
including EOF without a newline, aborts), split it into method, path and
protocol (fewer than three tokens aborts), then run the header loop.
Returns the parsed request together with the unconsumed input. -/
def parseRequest (s : Str) : Option (HTTPRequest × Str) :=
  let (firstLine, r1, ok) := readStringNL s
  if ok = false then none
  else
    let parts := goSplit ' ' (trimSpace firstLine)
    if parts.length < 3 then none
    else
      let acc0 : HTTPRequest :=
        { method := parts.getD 0 [], path := parts.getD 1 [],
          protocol := parts.getD 2 [], port := ("80".data), raw := firstLine }
      some (parseReqHeaders (r1.length + 1) acc0 r1)

theorem processRequestHeaderLine_raw (acc : HTTPRequest) (line : Str) :
    (processRequestHeaderLine acc line).raw = acc.raw := by
  rcases h : goSplitN2 ':' line with _ | ⟨k0, _ | ⟨v0, _ | ⟨x, tl⟩⟩⟩
  · simp [processRequestHeaderLine, h]
  · simp [processRequestHeaderLine, h]
  · simp only [processRequestHeaderLine, h]
    split_ifs <;> rfl
  · simp [processRequestHeaderLine, h]

/-- Core invariant of the header loop: the input splits as
`consumed ++ dropped ++ remaining`, where `consumed` is appended to `raw`,
and the `dropped` part (a trailing partial line swallowed by the EOF branch)
is nonempty only when the remaining input is empty and contains no
newline. -/
theorem parseReqHeaders_spec (fuel : Nat) :
    ∀ (acc : HTTPRequest) (s : Str), s.length < fuel →
    ∃ c d, s = c ++ d ++ (parseReqHeaders fuel acc s).2 ∧
      (parseReqHeaders fuel acc s).1.raw = acc.raw ++ c ∧
      (d ≠ [] → (parseReqHeaders fuel acc s).2 = [] ∧ '\n' ∉ d) := by
  induction fuel with
  | zero => intro acc s h; omega
  | succ fuel ih =>
    intro acc s hf
    rcases hrs : readStringNL s with ⟨line, r, ok⟩
    have happ : line ++ r = s := by
      have := readStringNL_append s
      rw [hrs] at this
      exact this
    by_cases hok : ok = false
    · subst hok
      have hr : r = [] := by
        have := readStringNL_eof_rest s
        rw [hrs] at this
        exact this rfl
      have hnl : '\n' ∉ line := by
        have := readStringNL_eof_no_nl s
        rw [hrs] at this
        exact this rfl
      have hres : parseReqHeaders (fuel + 1) acc s = (acc, r) := by
        simp [parseReqHeaders, hrs]
      refine ⟨[], line, ?_, ?_, ?_⟩
      · rw [hres, hr, ← happ, hr]
        simp
      · rw [hres]
        simp
      · intro _
        rw [hres]
        exact ⟨hr, hnl⟩
    · have hok' : ok = true := by revert hok; cases ok <;> simp
      subst hok'
      by_cases hcrlf : line = ('\r' :: '\n' :: [])
      · have hres : parseReqHeaders (fuel + 1) acc s
            = ({ acc with raw := acc.raw ++ line }, r) := by
          simp [parseReqHeaders, hrs, hcrlf]
        refine ⟨line, [], ?_, ?_, ?_⟩
        · rw [hres, ← happ]
          simp
        · rw [hres]
        · intro hd
          exact absurd rfl hd
      · have hshort : r.length < s.length := by
          have := readStringNL_ok_shorter s
          rw [hrs] at this
          exact this rfl
        have hf' : r.length < fuel := by omega
        set acc' : HTTPRequest :=
          { acc with raw := acc.raw ++ line } with hacc'
        obtain ⟨c2, d2, heq, hraw, hd⟩ :=
          ih (processRequestHeaderLine acc' line) r hf'
        have hres : parseReqHeaders (fuel + 1) acc s
            = parseReqHeaders fuel (processRequestHeaderLine acc' line) r := by
          simp [parseReqHeaders, hrs, hcrlf]
        refine ⟨line ++ c2, d2, ?_, ?_, ?_⟩
        · have h2 : (parseReqHeaders (fuel + 1) acc s).2
              = (parseReqHeaders fuel (processRequestHeaderLine acc' line) r).2 := by
            rw [hres]
          rw [h2]
          conv_lhs => rw [← happ, heq]
          simp [List.append_assoc]
        · rw [hres, hraw, processRequestHeaderLine_raw]
          simp [hacc', List.append_assoc]
        · intro hne
          rw [hres]
          exact hd hne

theorem parseRequest_raw_spec (s : Str) (req : HTTPRequest) (rest : Str)
    (h : parseRequest s = some (req, rest)) :
    (∃ d, req.raw ++ d ++ rest = s) ∧
      (rest ≠ [] → req.raw ++ rest = s) ∧
      (s.getLast? = some '\n' → req.raw ++ rest = s) := by
  rcases hrs : readStringNL s with ⟨firstLine, r1, ok⟩
  have happ : firstLine ++ r1 = s := by
    have := readStringNL_append s
    rw [hrs] at this
    exact this
  by_cases hok : ok = false
  · simp [parseRequest, hrs, hok] at h
  · have hok' : ok = true := by revert hok; cases ok <;> simp
    subst hok'
    by_cases hlen : (goSplit ' ' (trimSpace firstLine)).length < 3
    · simp [parseRequest, hrs, hlen] at h
    · set acc0 : HTTPRequest :=
        { method := (goSplit ' ' (trimSpace firstLine)).getD 0 [],
          path := (goSplit ' ' (trimSpace firstLine)).getD 1 [],
          protocol := (goSplit ' ' (trimSpace firstLine)).getD 2 [],
          port := ("80".data), raw := firstLine } with hacc0
      obtain ⟨c, d, heq, hraw, hd⟩ :=
        parseReqHeaders_spec (r1.length + 1) acc0 r1 (by omega)
      have hsome : parseRequest s
          = some (parseReqHeaders (r1.length + 1) acc0 r1) := by
        simp [parseRequest, hrs, hlen, hacc0]
      rw [hsome] at h
      rw [Option.some_inj] at h
      have hreq : req = (parseReqHeaders (r1.length + 1) acc0 r1).1 := by
        rw [h]
      have hrest : rest = (parseReqHeaders (r1.length + 1) acc0 r1).2 := by
        rw [h]
      have hraw' : (parseReqHeaders (r1.length + 1) acc0 r1).1.raw
          = firstLine ++ c := by
        rw [hraw, hacc0]
      have hsplit : s = firstLine ++
          (c ++ (d ++ (parseReqHeaders (r1.length + 1) acc0 r1).2)) := by
        conv_lhs => rw [← happ]
        conv_lhs => rw [heq]
        simp [List.append_assoc]
      refine ⟨⟨d, ?_⟩, ?_, ?_⟩
      · rw [hreq, hrest, hraw', hsplit]
        simp [List.append_assoc]
      · intro hne
        have hdnil : d = [] := by
          by_contra hdne
          exact hne (hrest ▸ (hd hdne).1)
        subst hdnil
        rw [hreq, hrest, hraw', hsplit]
        simp [List.append_assoc]
      · intro hlast
        have hdnil : d = [] := by
          by_contra hdne
          obtain ⟨hrnil, hnl⟩ := hd hdne
          have hs : s = (firstLine ++ c) ++ d := by
            rw [hsplit, hrnil]
            simp [List.append_assoc]
          have hlast2 : s.getLast? = d.getLast? := by
            rw [hs]
            exact List.getLast?_append_of_ne_nil _ hdne
          rw [hlast2] at hlast
          have hmem : '\n' ∈ d.getLast? := Option.mem_def.mpr hlast
          obtain ⟨hne', hEq⟩ := List.mem_getLast?_eq_getLast hmem
          exact hnl (hEq ▸ List.getLast_mem hne')
        subst hdnil
        rw [hreq, hrest, hraw', hsplit]
        simp [List.append_assoc]

/-! ## HTTP response codec (proxy package `parseResponse`) -/

/-- ASCII decimal digit test (Go `strconv.Atoi` accepts only these after an
optional sign). -/
def isDigit (c : Char) : Bool := '0' ≤ c && c ≤ '9'

/-- Value of an all-digit string. -/
def digitsVal (s : Str) : Nat :=
  s.foldl (fun a c => a * 10 + (c.toNat - '0'.toNat)) 0

/-- Embeds Go `strconv.Atoi` with the error discarded (the proxy writes
`n, _ = strconv.Atoi(s)` or `n, _ := ...`): a syntactically invalid number
yields 0. -/
def goAtoi (s : Str) : Int :=
  match s with
  | [] => 0
  | '-' :: rest =>
    if rest ≠ [] ∧ rest.all isDigit then -(digitsVal rest : Int) else 0
  | '+' :: rest =>
    if rest ≠ [] ∧ rest.all isDigit then (digitsVal rest : Int) else 0
  | _ => if s.all isDigit then (digitsVal s : Int) else 0

/-- Header maps: Go `map[string]string` observed through insertion and
lookup.  Keys are compared byte-exactly, as Go map keys are. -/
abbrev Hdrs := List (Str × Str)

/-- Embeds Go map assignment `m[k] = v`: replaces the value of an existing
byte-identical key, otherwise adds the binding. -/
def insertHdr : Hdrs → Str → Str → Hdrs
  | [], k, v => [(k, v)]
  | (k', v') :: t, k, v =>
    if k' = k then (k, v) :: t else (k', v') :: insertHdr t k v

/-- Embeds Go map lookup `m[k]`: byte-exact key comparison. -/
def lookupHdr : Hdrs → Str → Option Str
  | [], _ => none
  | (k', v') :: t, k => if k' = k then some v' else lookupHdr t k

/-- Embeds one header line of `parseResponse`: split on the first ":",
store the trimmed value under the trimmed name (lines without a ":" are
skipped). -/
def processRespHeaderLine (m : Hdrs) (line : Str) : Hdrs :=
  match goSplitN2 ':' line with
  | [k0, v0] => insertHdr m (trimSpace k0) (trimSpace v0)
  | _ => m

/-- Embeds the header loop of `parseResponse`: lines accumulate into the
raw buffer until CRLF; EOF ends the loop without buffering the partial
line. -/
def parseRespHeaders (fuel : Nat) (m : Hdrs) (raw : Str) (s : Str) :
    Hdrs × Str × Str :=
  match fuel with
  | 0 => (m, raw, s)
  | fuel + 1 =>
    let (line, r, ok) := readStringNL s
    if ok = false then (m, raw, r)
    else
      let raw' := raw ++ line
      if line = ('\r' :: '\n' :: []) then (m, raw', r)
      else parseRespHeaders fuel (processRespHeaderLine m line) raw' r

structure HTTPResponse where
  proto : Str := []
  statusCode : Int := 0
  status : Str := []
  headers : Hdrs := []
  body : Option Str := none
  raw : Str := []
deriving Repr, DecidableEq

/-- Embeds `parseResponse` in the proxy package: status line (error or EOF
aborts; fewer than two space-separated tokens aborts), header block, then a
body of exactly `Content-Length` bytes when that header is present with a
positive value (a short read aborts, Go `io.ReadFull` failing).  Returns
the response and the unconsumed input. -/
def parseResponse (s : Str) : Option (HTTPResponse × Str) :=
  let (statusLine, r1, ok) := readStringNL s
  if ok = false then none
  else
    let parts := goSplit ' ' (trimSpace statusLine)
    if parts.length < 2 then none
    else
      let res := parseRespHeaders (r1.length + 1) [] statusLine r1
      let base : HTTPResponse :=
        { proto := parts.getD 0 [],
          statusCode := goAtoi (parts.getD 1 []),
          status := if 2 < parts.length then joinSpace (parts.drop 2) else [],
          headers := res.1, body := none, raw := res.2.1 }
      match lookupHdr res.1 ("Content-Length".data) with
      | some cl =>
        let len := goAtoi cl
        if 0 < len then
          if res.2.2.length < len.toNat then none
          else
            let bodyBytes := res.2.2.take len.toNat
            let resp : HTTPResponse :=
              { base with body := some bodyBytes, raw := res.2.1 ++ bodyBytes }
            some (resp, res.2.2.drop len.toNat)
        else some (base, res.2.2)
      | none => some (base, res.2.2)

/-! ## CONNECT request parsing and raw response reading (proxy package) -/

/-- Embeds the shared read-lines-until-CRLF loop of `readConnectRequest`
and `readServerResponse`: any read error, including EOF before the blank
line, aborts; otherwise returns the accumulated header block and the
unconsumed remainder. -/
def readUntilBlankLine (fuel : Nat) (acc : Str) (s : Str) :
    Option (Str × Str) :=
  match fuel with
  | 0 => none
  | fuel + 1 =>
    let (line, r, ok) := readStringNL s
    if ok = false then none
    else
      let acc' := acc ++ line
      if line = ('\r' :: '\n' :: []) then some (acc', r)
      else readUntilBlankLine fuel acc' r

/-- Embeds `readServerResponse`: the server-to-client header block. -/
def readServerResponse (s : Str) : Option (Str × Str) :=
  readUntilBlankLine (s.length + 1) [] s

/-- The text before the first CRLF, embedding
`strings.Split(request, "\r\n")[0]`. -/
def takeBeforeCRLF : Str → Str
  | [] => []
  | '\r' :: '\n' :: _ => []
  | c :: rest => c :: takeBeforeCRLF rest

/-- Embeds `processConnectRequest` (built on `readConnectRequest`): read the
CONNECT header block, take the first line, split on spaces (fewer than three
tokens aborts), take token 1 as the target, append ":443" when the target
has no colon, and derive the domain as the part before the first colon.
Returns `(target, domain, unconsumed input)`. -/
def processConnectRequest (s : Str) : Option (Str × Str × Str) :=
  match readUntilBlankLine (s.length + 1) [] s with
  | none => none
  | some (request, rest) =>
    let firstLine := takeBeforeCRLF request
    let parts := goSplit ' ' (trimSpace firstLine)
    if parts.length < 3 then none
    else
      let t0 := parts.getD 1 []
      let target := if ':' ∈ t0 then t0 else t0 ++ (":443".data)
      some (target, (goSplit ':' target).headD [], rest)

/-! ## Blocklist oracle (`checkHost` / `checkAndBlockHost`) -/

/-- Embeds the scan loop of `checkHost` over the lines of the `blocked`
file: trim each line, skip empty ones, and compare case-insensitively
against the host; any match blocks. -/
def isBlockedIn (lines : List Str) (host : Str) : Bool :=
  lines.any fun l => !(trimSpace l).isEmpty && eqFold host (trimSpace l)

/-- Embeds `checkAndBlockHost`'s decision: `none` models a failed open of
the `blocked` file, which fails open (the host is treated as allowed). -/
def shouldBlock (blFile : Option (List Str)) (host : Str) : Bool :=
  match blFile with
  | none => false
  | some lines => isBlockedIn lines host

/-! ## Network effects as event traces -/

/-- Observable per-connection effects.  `setOriginDeadline` is in the
vocabulary because the legacy forwarder arms a deadline on the origin
socket; whether the refactored forwarder does is one of the verified
claims. -/
inductive Ev where
  | setClientDeadline (secs : Nat)
  | setOriginDeadline (secs : Nat)
  | dialOrigin (target : Str)
  | writeOrigin (data : Str)
  | writeClient (data : Str)
  | closeWriteOrigin
  | closeWriteClient
  | closeOrigin
  | closeClient
deriving Repr, DecidableEq

/-- `HTTP/1.1 200 Connection Established` acknowledgement bytes. -/
def connEstablished : Str :=
  ("HTTP/1.1 200 Connection Established\r\n\r\n").data

/-- `HTTP/1.1 502 Bad Gateway` bytes (written only by the legacy
monolithic CONNECT handler). -/
def badGateway502 : Str := ("HTTP/1.1 502 Bad Gateway\r\n\r\n").data

/-- The `forbiddenHTMLTemplate` constant with `%s` substituted by the
domain (Go `fmt.Sprintf`). -/
def forbiddenHTML (domain : Str) : Str :=
  ("<!DOCTYPE html>\n<html>\n<head>\n    <title>Access Denied</title>\n    <style>\n        body \x7b font-family: Arial, sans-serif; text-align: center; padding: 50px; \x7d\n        h1 \x7b color: #d9534f; \x7d\n    </style>\n</head>\n<body>\n    <h1>403 Forbidden</h1>\n    <p>Access to ").data
    ++ domain ++
    (" has been restricted by the administrator.</p>\n</body>\n</html>").data

/-- The full 403 response assembled by `sendForbiddenResponse`. -/
def forbiddenResponse (domain : Str) : Str :=
  ("HTTP/1.1 403 Forbidden\r\nContent-Type: text/html; charset=utf-8\r\nContent-Length: ").data
    ++ (Nat.repr (forbiddenHTML domain).length).data
    ++ ("\r\nConnection: close\r\n\r\n").data
    ++ forbiddenHTML domain

/-! ## Certificate authority (`generateCertificate`) -/

/-- The Root CA keypair as loaded by `tls.LoadX509KeyPair` plus its parsed
leaf; key material is abstract (identified by opaque tokens), since only
which key signs what is specified. -/
structure RootCA where
  certificateId : Nat
  privateKeyId : Nat
  leafId : Nat
deriving Repr, DecidableEq

/-- The `x509.Certificate` template fields set by `generateCertificate`. -/
structure CertTemplate where
  serialNumber : Nat
  subjectCN : Str
  dnsNames : List Str
  notBefore : Int
  notAfter : Int
  keyUsageDigitalSignature : Bool
  keyUsageKeyEncipherment : Bool
  extKeyUsageServerAuth : Bool
  basicConstraintsValid : Bool
  isCA : Bool
  subjectKeyId : List Nat
deriving Repr, DecidableEq

/-- Result of `x509.CreateCertificate`: the filled template, the parent it
chains to (`rootCA.Leaf`) and the key that signed it
(`rootCA.PrivateKey`), plus the freshly generated 2048-bit RSA leaf key. -/
structure SignedCert where
  tmpl : CertTemplate
  parentId : Nat
  signingKeyId : Nat
  leafKeyId : Nat
deriving Repr, DecidableEq

/-- Big-endian base-256 value of a byte string, embedding Go
`new(big.Int).SetBytes` (always non-negative). -/
def natOfBytesBE (bs : List Nat) : Nat :=
  bs.foldl (fun a b => a * 256 + b) 0

/-- Embeds `generateCertificate`.  `now` is the wall clock in seconds,
`nowTS` the `time.Now().Format(time.RFC3339Nano)` string hashed into the
serial, `sha256` the hash oracle, `freshKeyId` the fresh RSA keypair. -/
def generateCertificate (domain : Str) (now : Int) (sha256 : Str → List Nat)
    (nowTS : Str) (freshKeyId : Nat) (rootCA : RootCA) : SignedCert :=
  let cleanDomain := (goSplit ':' domain).headD []
  let serial := natOfBytesBE (sha256 (domain ++ nowTS))
  { tmpl :=
      { serialNumber := serial,
        subjectCN := cleanDomain,
        dnsNames := [cleanDomain, '*' :: '.' :: cleanDomain],
        notBefore := now - 5 * 60,
        notAfter := now + 2 * 60 * 60,
        keyUsageDigitalSignature := true,
        keyUsageKeyEncipherment := true,
        extKeyUsageServerAuth := true,
        basicConstraintsValid := true,
        isCA := false,
        subjectKeyId := [1, 2, 3, 4] },
    parentId := rootCA.leafId,
    signingKeyId := rootCA.privateKeyId,
    leafKeyId := freshKeyId }

/-! ## Refactored proxy package traces -/

/-- Environment oracles of one MITM CONNECT flow. -/
structure MITMEnv where
  write200Ok : Bool
  caLoadOk : Bool
  certGenOk : Bool
  handshakeOk : Bool
  dialOk : Bool
  clientBytes : Str
  serverBytes : Str
deriving Repr, DecidableEq

/-- Embeds `forwardServerResponse`: read the origin's header block (on
error nothing is forwarded), else write the headers and then stream the
rest verbatim to the client. -/
def forwardServerResponseTrace (serverBytes : Str) : List Ev :=
  match readServerResponse serverBytes with
  | none => []
  | some (headerBlock, rest) =>
    [Ev.writeClient headerBlock, Ev.writeClient rest]

/-- Embeds `tunnelConnections`: two concurrent copies, serialized here in a
canonical order (event multiplicity and per-direction order are the
modelled invariants).  The client-to-origin goroutine raw-copies and then
fully closes the origin; the origin-to-client goroutine runs
`forwardServerResponse` and then fully closes the client; `wg.Wait` makes
the pump return only after both. -/
def tunnelConnections (clientBytes serverBytes : Str) : List Ev :=
  [Ev.writeOrigin clientBytes, Ev.closeOrigin]
    ++ forwardServerResponseTrace serverBytes ++ [Ev.closeClient]

/-- Embeds `establishMITMTunnel`: write the 200 acknowledgement first, then
load the root CA, mint the leaf, handshake TLS with the client, dial TLS to
the origin (failure returns with nothing further written), and finally pump;
the deferred `serverTLS.Close` runs after the pump. -/
def establishMITMTunnel (e : MITMEnv) (target : Str) : List Ev :=
  Ev.writeClient connEstablished ::
  (if e.write200Ok = false then []
   else if e.caLoadOk = false then []
   else if e.certGenOk = false then []
   else if e.handshakeOk = false then []
   else
     Ev.dialOrigin target ::
     (if e.dialOk = false then []
      else tunnelConnections e.clientBytes e.serverBytes ++ [Ev.closeOrigin]))

/-- Embeds `handleHTTPS`: parse the CONNECT request (failure closes), check
the blocklist (a hit sends the 403 and closes), else run the MITM tunnel;
the deferred `client.Close` runs on every path. -/
def handleHTTPS (blFile : Option (List Str)) (e : MITMEnv) (input : Str) :
    List Ev :=
  (match processConnectRequest input with
   | none => []
   | some (target, domain, _) =>
     if shouldBlock blFile domain then [Ev.writeClient (forbiddenResponse domain)]
     else establishMITMTunnel e target) ++ [Ev.closeClient]

/-- Environment oracles of one plaintext HTTP flow. -/
structure HTTPEnv where
  dialOk : Bool
  originWriteOk : Bool
  originBytes : Str
deriving Repr, DecidableEq

/-- Embeds `net.JoinHostPort`. -/
def joinHostPort (host port : Str) : Str :=
  if ':' ∈ host then '[' :: host ++ (']' :: ':' :: port) else host ++ (':' :: port)

/-- Embeds `forwardResponse`: parse the origin's response (failure forwards
nothing) and write its raw bytes to the client. -/
def forwardResponseTrace (originBytes : Str) : List Ev :=
  match parseResponse originBytes with
  | none => []
  | some (resp, _) => [Ev.writeClient resp.raw]

/-- Embeds `handleHTTP` in proxy/http.go: deadline on the client socket,
parse one request (failure closes), blocklist check (a hit sends the 403
and closes), dial the origin (failure closes), forward the raw request
bytes, forward the response; deferred closes of the origin (when dialed)
and the client run on every exit path. -/
def handleHTTPGo (blFile : Option (List Str)) (e : HTTPEnv) (input : Str) :
    List Ev :=
  Ev.setClientDeadline 30 ::
  (match parseRequest input with
   | none => []
   | some (req, _) =>
     if shouldBlock blFile req.host then [Ev.writeClient (forbiddenResponse req.host)]
     else
       Ev.dialOrigin (joinHostPort req.host req.port) ::
       (if e.dialOk = false then []
        else
          Ev.writeOrigin req.raw ::
          (if e.originWriteOk = false then []
           else forwardResponseTrace e.originBytes) ++ [Ev.closeOrigin]))
  ++ [Ev.closeClient]

/-- Embeds `handleConnection` in the proxy package: deadline, peek seven
bytes (failure closes), route on "CONNECT"; the handler's own deferred
`client.Close` runs after the routed handler returns. -/
def handleConnection (blFile : Option (List Str)) (eM : MITMEnv)
    (eH : HTTPEnv) (input : Str) : List Ev :=
  Ev.setClientDeadline 30 ::
  (if input.length < 7 then []
   else if input.take 7 = ("CONNECT".data) then handleHTTPS blFile eM input
   else handleHTTPGo blFile eH input)
  ++ [Ev.closeClient]

/-! ## Legacy monolithic main.go traces

`ParseRawHTTP` and `parseHTTPResponse` there are byte-for-byte the same
algorithms as `parseRequest`/`parseResponse` above (the refactor moved them
into the proxy package), so the same embeddings are reused. -/

/-- Environment oracles of one legacy CONNECT flow. -/
structure MainEnv where
  dialOk : Bool
  write200Ok : Bool
  clientBytes : Str
  serverBytes : Str
deriving Repr, DecidableEq

/-- Embeds the legacy `handleHTTPS` in main.go: parse the CONNECT request,
dial raw TCP to the target, on dial failure write 502 and return; else
write the 200 acknowledgement and raw-tunnel both directions, each side
ending with `CloseWrite` on its destination; the deferred `server.Close`
runs on every path after the dial succeeded. -/
def mainHandleHTTPS (e : MainEnv) (input : Str) : List Ev :=
  match processConnectRequest input with
  | none => []
  | some (target, _, rest) =>
    Ev.dialOrigin target ::
    (if e.dialOk = false then [Ev.writeClient badGateway502]
     else
       Ev.writeClient connEstablished ::
       (if e.write200Ok = false then []
        else [Ev.writeOrigin (rest ++ e.clientBytes), Ev.closeWriteOrigin,
              Ev.writeClient e.serverBytes, Ev.closeWriteClient])
       ++ [Ev.closeOrigin])

/-- Embeds the legacy `handleHTTP` in main.go: parse, dial, arm a
30-second deadline on the origin socket, forward the raw request, forward
the parsed response verbatim. -/
def mainHandleHTTP (e : HTTPEnv) (input : Str) : List Ev :=
  match parseRequest input with
  | none => []
  | some (req, _) =>
    Ev.dialOrigin (joinHostPort req.host req.port) ::
    (if e.dialOk = false then []
     else
       Ev.setOriginDeadline 30 ::
       Ev.writeOrigin req.raw ::
       (if e.originWriteOk = false then []
        else forwardResponseTrace e.originBytes) ++ [Ev.closeOrigin])

/-! ## Supporting lemmas -/

/-- Bytes delivered to the client by a trace, in order. -/
def clientDataWritten (evs : List Ev) : Str :=
  (evs.filterMap fun e =>
    match e with
    | Ev.writeClient d => some d
    | _ => none).flatten

theorem takeWhile_append_sep (sep : Char) (a b : Str) (h : sep ∉ a) :
    (a ++ sep :: b).takeWhile (· != sep) = a := by
  induction a with
  | nil => simp [List.takeWhile_cons]
  | cons c rest ih =>
    have hc : c ≠ sep := fun hc => h (hc ▸ List.mem_cons_self c rest)
    have hb : (c != sep) = true := by simp [bne, hc]
    have hrest : sep ∉ rest := fun hm => h (List.mem_cons_of_mem c hm)
    simp [List.takeWhile_cons, hb, ih hrest]

theorem dropWhile_append_sep (sep : Char) (a b : Str) (h : sep ∉ a) :
    (a ++ sep :: b).dropWhile (· != sep) = sep :: b := by
  induction a with
  | nil => simp [List.dropWhile_cons]
  | cons c rest ih =>
    have hc : c ≠ sep := fun hc => h (hc ▸ List.mem_cons_self c rest)
    have hb : (c != sep) = true := by simp [bne, hc]
    have hrest : sep ∉ rest := fun hm => h (List.mem_cons_of_mem c hm)
    simp [List.dropWhile_cons, hb, ih hrest]

theorem goSplitN2_exact (sep : Char) (a b : Str) (h : sep ∉ a) :
    goSplitN2 sep (a ++ sep :: b) = [a, b] := by
  have hmem : sep ∈ a ++ sep :: b := List.mem_append_right a (List.mem_cons_self sep b)
  simp [goSplitN2, hmem, takeWhile_append_sep sep a b h,
    dropWhile_append_sep sep a b h]

theorem lookupHdr_insertHdr_self (m : Hdrs) (k v : Str) :
    lookupHdr (insertHdr m k v) k = some v := by
  induction m with
  | nil => simp [insertHdr, lookupHdr]
  | cons kv t ih =>
    rcases kv with ⟨k', v'⟩
    by_cases h : k' = k
    · simp [insertHdr, lookupHdr, h]
    · simp [insertHdr, lookupHdr, h, ih]

theorem lookupHdr_insertHdr_ne (m : Hdrs) (k v k' : Str) (h : k' ≠ k) :
    lookupHdr (insertHdr m k v) k' = lookupHdr m k' := by
  have hkk : ¬k = k' := fun hk => h hk.symm
  induction m with
  | nil => simp [insertHdr, lookupHdr, hkk]
  | cons kv t ih =>
    rcases kv with ⟨k0, v0⟩
    by_cases h0 : k0 = k
    · subst h0
      simp [insertHdr, lookupHdr, hkk]
    · simp [insertHdr, lookupHdr, h0, ih]

theorem readUntilBlankLine_spec (fuel : Nat) :
    ∀ (acc s h r : Str), readUntilBlankLine fuel acc s = some (h, r) →
      ∃ c, h = acc ++ c ∧ c ++ r = s := by
  induction fuel with
  | zero => intro acc s h r hres; simp [readUntilBlankLine] at hres
  | succ fuel ih =>
    intro acc s h r hres
    rcases hrs : readStringNL s with ⟨line, r1, ok⟩
    have happ : line ++ r1 = s := by
      have := readStringNL_append s
      rw [hrs] at this
      exact this
    by_cases hok : ok = false
    · subst hok
      simp [readUntilBlankLine, hrs] at hres
    · have hok' : ok = true := by revert hok; cases ok <;> simp
      subst hok'
      by_cases hcrlf : line = ('\r' :: '\n' :: [])
      · subst hcrlf
        have hres' : acc ++ ('\r' :: '\n' :: []) = h ∧ r1 = r := by
          have := hres
          simp [readUntilBlankLine, hrs] at this
          exact this
        exact ⟨_, hres'.1.symm, by rw [hres'.2] at happ; exact happ⟩
      · have hres' : readUntilBlankLine fuel (acc ++ line) r1 = some (h, r) := by
          have := hres
          simp [readUntilBlankLine, hrs, hcrlf] at this
          exact this
        obtain ⟨c2, hh, hc2⟩ := ih (acc ++ line) r1 h r hres'
        refine ⟨line ++ c2, by rw [hh, List.append_assoc], ?_⟩
        rw [← happ, ← hc2]
        simp [List.append_assoc]

theorem readServerResponse_append (s h r : Str)
    (hres : readServerResponse s = some (h, r)) : h ++ r = s := by
  obtain ⟨c, hh, hc⟩ := readUntilBlankLine_spec (s.length + 1) [] s h r hres
  rw [hh]
  simpa using hc

theorem forwardResponseTrace_no_writeOrigin (s d : Str) :
    Ev.writeOrigin d ∉ forwardResponseTrace s := by
  unfold forwardResponseTrace
  rcases parseResponse s with _ | ⟨resp, rest⟩ <;> simp

theorem forwardResponseTrace_no_originDeadline (s : Str) (n : Nat) :
    Ev.setOriginDeadline n ∉ forwardResponseTrace s := by
  unfold forwardResponseTrace
  rcases parseResponse s with _ | ⟨resp, rest⟩ <;> simp

theorem foldl_serial_pos (bs : List Nat) (a : Nat) (ha : 0 < a) :
    0 < bs.foldl (fun x b => x * 256 + b) a := by
  induction bs generalizing a with
  | nil => simpa using ha
  | cons b rest ih =>
    have h256 : 0 < a * 256 := Nat.mul_pos ha (by norm_num)
    exact ih (a * 256 + b) (by omega)

theorem natOfBytesBE_pos (bs : List Nat) (h : ∃ b ∈ bs, b ≠ 0) :
    0 < natOfBytesBE bs := by
  induction bs with
  | nil => simp at h
  | cons b rest ih =>
    by_cases hb : b = 0
    · subst hb
      have hrest : ∃ x ∈ rest, x ≠ 0 := by
        obtain ⟨x, hx, hxne⟩ := h
        cases List.mem_cons.mp hx with
        | inl h0 => exact absurd h0 hxne
        | inr h0 => exact ⟨x, h0, hxne⟩
      have := ih hrest
      simpa [natOfBytesBE] using this
    · have hbpos : 0 < b := Nat.pos_of_ne_zero hb
      have : 0 < List.foldl (fun x c => x * 256 + c) b rest :=
        foldl_serial_pos rest b hbpos
      simpa [natOfBytesBE] using this

/-- Core invariant of the response header loop, mirroring
`parseReqHeaders_spec`: the input splits as
`consumed ++ dropped ++ remaining`, `consumed` is appended to the raw
buffer, and the `dropped` trailing partial line is nonempty only when the
remaining input is empty and contains no newline. -/
theorem parseRespHeaders_spec (fuel : Nat) :
    ∀ (m : Hdrs) (raw s : Str), s.length < fuel →
    ∃ c d, s = c ++ d ++ (parseRespHeaders fuel m raw s).2.2 ∧
      (parseRespHeaders fuel m raw s).2.1 = raw ++ c ∧
      (d ≠ [] → (parseRespHeaders fuel m raw s).2.2 = [] ∧ '\n' ∉ d) := by
  induction fuel with
  | zero => intro m raw s h; omega
  | succ fuel ih =>
    intro m raw s hf
    rcases hrs : readStringNL s with ⟨line, r, ok⟩
    have happ : line ++ r = s := by
      have := readStringNL_append s
      rw [hrs] at this
      exact this
    by_cases hok : ok = false
    · subst hok
      have hr : r = [] := by
        have := readStringNL_eof_rest s
        rw [hrs] at this
        exact this rfl
      have hnl : '\n' ∉ line := by
        have := readStringNL_eof_no_nl s
        rw [hrs] at this
        exact this rfl
      have hres : parseRespHeaders (fuel + 1) m raw s = (m, raw, r) := by
        simp [parseRespHeaders, hrs]
      refine ⟨[], line, ?_, ?_, ?_⟩
      · rw [hres, hr, ← happ, hr]
        simp
      · rw [hres]
        simp
      · intro _
        rw [hres]
        exact ⟨hr, hnl⟩
    · have hok' : ok = true := by revert hok; cases ok <;> simp
      subst hok'
      by_cases hcrlf : line = ('\r' :: '\n' :: [])
      · have hres : parseRespHeaders (fuel + 1) m raw s
            = (m, raw ++ line, r) := by
          simp [parseRespHeaders, hrs, hcrlf]
        refine ⟨line, [], ?_, ?_, ?_⟩
        · rw [hres, ← happ]
          simp
        · rw [hres]
        · intro hd
          exact absurd rfl hd
      · have hshort : r.length < s.length := by
          have := readStringNL_ok_shorter s
          rw [hrs] at this
          exact this rfl
        have hf' : r.length < fuel := by omega
        obtain ⟨c2, d2, heq, hraw, hd⟩ :=
          ih (processRespHeaderLine m line) (raw ++ line) r hf'
        have hres : parseRespHeaders (fuel + 1) m raw s
            = parseRespHeaders fuel (processRespHeaderLine m line)
                (raw ++ line) r := by
          simp [parseRespHeaders, hrs, hcrlf]
        refine ⟨line ++ c2, d2, ?_, ?_, ?_⟩
        · have h2 : (parseRespHeaders (fuel + 1) m raw s).2.2
              = (parseRespHeaders fuel (processRespHeaderLine m line)
                  (raw ++ line) r).2.2 := by
            rw [hres]
          rw [h2]
          conv_lhs => rw [← happ, heq]
          simp [List.append_assoc]
        · rw [hres, hraw]
          simp [List.append_assoc]
        · intro hne
          rw [hres]
          exact hd hne

/-- Raw-bytes invariant of `parseResponse`, mirroring
`parseRequest_raw_spec`: `raw` is a prefix of the input, and equals
exactly the consumed bytes whenever unconsumed input remains, a body was
read, or the input ends at a line boundary; only a trailing partial header
line (EOF without a final newline) is consumed but dropped from `raw`. -/
theorem parseResponse_raw_spec (s : Str) (resp : HTTPResponse) (rest : Str)
    (h : parseResponse s = some (resp, rest)) :
    (∃ d, resp.raw ++ d ++ rest = s) ∧
      (rest ≠ [] → resp.raw ++ rest = s) ∧
      (s.getLast? = some '\n' → resp.raw ++ rest = s) := by
  rcases hrs : readStringNL s with ⟨statusLine, r1, ok⟩
  have happ : statusLine ++ r1 = s := by
    have := readStringNL_append s
    rw [hrs] at this
    exact this
  by_cases hok : ok = false
  · simp [parseResponse, hrs, hok] at h
  · have hok' : ok = true := by revert hok; cases ok <;> simp
    subst hok'
    by_cases hlen : (goSplit ' ' (trimSpace statusLine)).length < 2
    · simp [parseResponse, hrs, hlen] at h
    · obtain ⟨c, d, heq, hraw, hd⟩ :=
        parseRespHeaders_spec (r1.length + 1) [] statusLine r1 (by omega)
      have hcases :
          (resp.raw = (parseRespHeaders (r1.length + 1) [] statusLine r1).2.1
            ∧ rest = (parseRespHeaders (r1.length + 1) [] statusLine r1).2.2)
          ∨ resp.raw ++ rest = s := by
        rcases hcl : lookupHdr
            (parseRespHeaders (r1.length + 1) [] statusLine r1).1
            (("Content-Length").data) with _ | cl
        · left
          have h' := h
          simp [parseResponse, hrs, hlen, hcl] at h'
          exact ⟨by rw [← h'.1], h'.2.symm⟩
        · by_cases hpos : 0 < goAtoi cl
          · by_cases hshort :
                (parseRespHeaders (r1.length + 1) [] statusLine r1).2.2.length
                  < (goAtoi cl).toNat
            · simp [parseResponse, hrs, hlen, hcl, hpos, hshort] at h
            · right
              have h' := h
              simp [parseResponse, hrs, hlen, hcl, hpos, hshort] at h'
              have hn : 0 < (goAtoi cl).toNat := by omega
              have hr2len : (goAtoi cl).toNat ≤
                  (parseRespHeaders (r1.length + 1)
                    [] statusLine r1).2.2.length := by omega
              have hr2ne :
                  (parseRespHeaders (r1.length + 1) [] statusLine r1).2.2
                    ≠ [] := by
                intro hnil
                rw [hnil] at hr2len
                simp at hr2len
                omega
              have hdnil : d = [] := by
                by_contra hdne
                exact hr2ne (hd hdne).1
              have hrawv : resp.raw
                  = (parseRespHeaders (r1.length + 1) [] statusLine r1).2.1
                    ++ (parseRespHeaders (r1.length + 1)
                        [] statusLine r1).2.2.take (goAtoi cl).toNat := by
                rw [← h'.1]
              have hrestv : rest
                  = (parseRespHeaders (r1.length + 1)
                      [] statusLine r1).2.2.drop (goAtoi cl).toNat :=
                h'.2.symm
              rw [hrawv, hrestv, hraw, List.append_assoc,
                List.append_assoc, List.take_append_drop]
              conv_rhs => rw [← happ]
              conv_rhs => rw [heq]
              rw [hdnil]
              simp
          · left
            have h' := h
            simp [parseResponse, hrs, hlen, hcl, hpos] at h'
            exact ⟨by rw [← h'.1], h'.2.symm⟩
      rcases hcases with ⟨hrawv, hrestv⟩ | hid
      · have hsplit : s = statusLine ++
            (c ++ (d ++ (parseRespHeaders (r1.length + 1)
              [] statusLine r1).2.2)) := by
          conv_lhs => rw [← happ]
          conv_lhs => rw [heq]
          simp [List.append_assoc]
        refine ⟨⟨d, ?_⟩, ?_, ?_⟩
        · rw [hrawv, hrestv, hraw, hsplit]
          simp [List.append_assoc]
        · intro hne
          have hdnil : d = [] := by
            by_contra hdne
            exact hne (hrestv ▸ (hd hdne).1)
          subst hdnil
          rw [hrawv, hrestv, hraw, hsplit]
          simp [List.append_assoc]
        · intro hlast
          have hdnil : d = [] := by
            by_contra hdne
            obtain ⟨hrnil, hnl⟩ := hd hdne
            have hs : s = (statusLine ++ c) ++ d := by
              rw [hsplit, hrnil]
              simp [List.append_assoc]
            have hlast2 : s.getLast? = d.getLast? := by
              rw [hs]
              exact List.getLast?_append_of_ne_nil _ hdne
            rw [hlast2] at hlast
            have hmem : '\n' ∈ d.getLast? := Option.mem_def.mpr hlast
            obtain ⟨hne', hEq⟩ := List.mem_getLast?_eq_getLast hmem
            exact hnl (hEq ▸ List.getLast_mem hne')
          subst hdnil
          rw [hrawv, hrestv, hraw, hsplit]
          simp [List.append_assoc]
      · exact ⟨⟨[], by simpa using hid⟩, fun _ => hid, fun _ => hid⟩

/-- In the refactored forwarder, every origin write carries exactly the
parsed request's raw bytes. -/
theorem handleHTTPGo_writeOrigin_raw (blFile : Option (List Str))
    (e : HTTPEnv) (s : Str) (req : HTTPRequest) (rest : Str)
    (h : parseRequest s = some (req, rest)) (d : Str)
    (hmem : Ev.writeOrigin d ∈ handleHTTPGo blFile e s) : d = req.raw := by
  simp only [handleHTTPGo, h] at hmem
  by_cases hsb : shouldBlock blFile req.host
  · simp [hsb] at hmem
  · cases hdial : e.dialOk with
    | false => simp [hsb, hdial] at hmem
    | true =>
      cases horig : e.originWriteOk with
      | false =>
        simp [hsb, hdial, horig] at hmem
        exact hmem
      | true =>
        simp [hsb, hdial, horig] at hmem
        rcases hmem with hmem | hmem
        · exact hmem
        · exact absurd hmem (forwardResponseTrace_no_writeOrigin _ _)

/-! ## Claim theorems -/

/-- Claim C9 (confirmed): for a Host value with more than one colon,
`parseRequest` takes the text before the first colon as the host and the
text strictly between the first and second colon as the port; in
particular a bracketed IPv6 literal "[::1]:8080" parses as host "[" and
port "". -/
theorem host_port_naive_colon_split (v defPort : Str)
    (h2 : 2 ≤ v.count ':') :
    parseHostPort v defPort
      = (v.takeWhile (· != ':'),
         ((v.dropWhile (· != ':')).tail).takeWhile (· != ':')) ∧
    parseHostPort (("[::1]:8080").data) (("80").data)
      = ((("[").data), []) := by
  have hmem : ':' ∈ v := by
    have : 0 < v.count ':' := by omega
    exact List.count_pos_iff.mp this
  constructor
  · have hlen := goSplit_length_ge_two ':' v hmem
    simp only [parseHostPort]
    rw [goSplit_headD, if_pos (show 1 < (goSplit ':' v).length by omega),
      goSplit_getD_one _ _ hmem]
  · decide

/-- Claim C9 witness: instantiation at "[::1]:8080". -/
theorem host_port_naive_colon_split_witness :
    parseHostPort (("[::1]:8080").data) (("80").data)
      = ((("[").data), []) :=
  (host_port_naive_colon_split (("[::1]:8080").data) (("80").data)
    (by decide)).2

/-- Claim C4 counterexample: a response whose only length header is spelled
"content-length" parses with no body and a failed Content-Length lookup:
the header map is case-SENSITIVE, refuting the claim that the codec finds
content-length in any casing. -/
theorem header_lookup_case_sensitive_counterexample :
    ((parseResponse (("HTTP/1.1 200 OK\r\ncontent-length: 2\r\n\r\nhi").data)).map
      (fun p => (p.1.body, lookupHdr p.1.headers (("Content-Length").data),
        lookupHdr p.1.headers (("content-length").data), p.2)))
    = some (none, none, some (("2").data), (("hi").data)) := by
  decide

/-- Claim C4 amended: the header map keeps the last value for duplicates of
the same byte-exact name and stores names and values trimmed, but name
comparison is byte-exact (case-sensitive), so a lower-case content-length
is NOT found when the codec looks up Content-Length. -/
theorem header_map_semantics :
    (∀ (m : Hdrs) (k v : Str), lookupHdr (insertHdr m k v) k = some v) ∧
    (∀ (m : Hdrs) (k v k' : Str), k' ≠ k →
      lookupHdr (insertHdr m k v) k' = lookupHdr m k') ∧
    (∀ (m : Hdrs) (a b : Str), ':' ∉ a →
      processRespHeaderLine m (a ++ ':' :: b)
        = insertHdr m (trimSpace a) (trimSpace b)) ∧
    (∀ v : Str, lookupHdr (insertHdr [] (("content-length").data) v)
        (("Content-Length").data) = none) := by
  refine ⟨lookupHdr_insertHdr_self, lookupHdr_insertHdr_ne, ?_, ?_⟩
  · intro m a b h
    simp [processRespHeaderLine, goSplitN2_exact ':' a b h]
  · intro v
    simp [insertHdr, lookupHdr,
      show ¬(("content-length").data = (("Content-Length").data)) by decide]

/-- Claim C4 witness: a lookup under a different key is unaffected by an
insertion. -/
theorem header_map_semantics_witness :
    ((("b").data : Str) ≠ (("a").data)) ∧
    lookupHdr (insertHdr [] (("a").data) (("2").data)) (("b").data)
      = lookupHdr [] (("b").data) :=
  ⟨by decide, header_map_semantics.2.1 [] (("a").data) (("2").data)
    (("b").data) (by decide)⟩

/-- Claim C6 counterexample: on inputs ending at EOF in the middle of a
header line, BOTH codecs succeed having consumed the whole input (empty
remainder) while `raw` omits the consumed partial line ("Host: x"
respectively "X: y"), so the accumulated raw bytes do not equal the bytes
consumed from the stream. -/
theorem raw_bytes_partial_line_counterexample :
    (((parseRequest (("GET / HTTP/1.1\r\nHost: x").data)).map
        (fun p => (p.1.raw, p.2)))
      = some ((("GET / HTTP/1.1\r\n").data), ([] : Str)) ∧
     (("GET / HTTP/1.1\r\n").data : Str)
       ≠ (("GET / HTTP/1.1\r\nHost: x").data)) ∧
    (((parseResponse (("HTTP/1.1 200 OK\r\nX: y").data)).map
        (fun p => (p.1.raw, p.2)))
      = some ((("HTTP/1.1 200 OK\r\n").data), ([] : Str)) ∧
     (("HTTP/1.1 200 OK\r\n").data : Str)
       ≠ (("HTTP/1.1 200 OK\r\nX: y").data)) := by
  exact ⟨⟨by decide, by decide⟩, ⟨by decide, by decide⟩⟩

/-- Claim C6 amended: for both codecs, `raw` is always a prefix of the
input and equals exactly the consumed bytes whenever unconsumed input
remains or the input ends at a line boundary; only a trailing partial line
(EOF with no final newline) is consumed but dropped from `raw`.  The bytes
forwarded are exactly `raw`: every origin write of the plaintext forwarder
carries the request's `raw`, and the response forwarder's write to the
client is exactly the response's `raw`. -/
theorem raw_bytes_roundtrip :
    (∀ (s : Str) (req : HTTPRequest) (rest : Str),
      parseRequest s = some (req, rest) →
      (∃ d, req.raw ++ d ++ rest = s) ∧
      (rest ≠ [] → req.raw ++ rest = s) ∧
      (s.getLast? = some '\n' → req.raw ++ rest = s) ∧
      (∀ (blFile : Option (List Str)) (e : HTTPEnv) (d : Str),
        Ev.writeOrigin d ∈ handleHTTPGo blFile e s → d = req.raw)) ∧
    (∀ (s : Str) (resp : HTTPResponse) (rest : Str),
      parseResponse s = some (resp, rest) →
      (∃ d, resp.raw ++ d ++ rest = s) ∧
      (rest ≠ [] → resp.raw ++ rest = s) ∧
      (s.getLast? = some '\n' → resp.raw ++ rest = s) ∧
      forwardResponseTrace s = [Ev.writeClient resp.raw]) := by
  constructor
  · intro s req rest h
    obtain ⟨h1, h2, h3⟩ := parseRequest_raw_spec s req rest h
    exact ⟨h1, h2, h3, fun blFile e d hmem =>
      handleHTTPGo_writeOrigin_raw blFile e s req rest h d hmem⟩
  · intro s resp rest h
    obtain ⟨h1, h2, h3⟩ := parseResponse_raw_spec s resp rest h
    refine ⟨h1, h2, h3, ?_⟩
    simp [forwardResponseTrace, h]

/-- Claim C6 witness: round trip at a request followed by a body, and
verbatim forwarding of a response with a Content-Length body. -/
theorem raw_bytes_roundtrip_witness :
    (({ method := (("GET").data), path := (("/").data),
        protocol := (("HTTP/1.1").data), port := (("80").data),
        host := [], userAgent := [], proxyConnection := [],
        raw := (("GET / HTTP/1.1\r\n\r\n").data) } : HTTPRequest).raw
        ++ (("BODY").data)
      = (("GET / HTTP/1.1\r\n\r\nBODY").data)) ∧
    forwardResponseTrace
        (("HTTP/1.1 200 OK\r\nContent-Length: 2\r\n\r\nhi").data)
      = [Ev.writeClient
          ({ proto := (("HTTP/1.1").data), statusCode := 200,
             status := (("OK").data),
             headers := [((("Content-Length").data), (("2").data))],
             body := some (("hi").data),
             raw := (("HTTP/1.1 200 OK\r\nContent-Length: 2\r\n\r\nhi").data) }
            : HTTPResponse).raw] :=
  ⟨(raw_bytes_roundtrip.1 (("GET / HTTP/1.1\r\n\r\nBODY").data)
      { method := (("GET").data), path := (("/").data),
        protocol := (("HTTP/1.1").data), port := (("80").data),
        host := [], userAgent := [], proxyConnection := [],
        raw := (("GET / HTTP/1.1\r\n\r\n").data) }
      (("BODY").data) (by decide)).2.1 (by decide),
   (raw_bytes_roundtrip.2
      (("HTTP/1.1 200 OK\r\nContent-Length: 2\r\n\r\nhi").data)
      { proto := (("HTTP/1.1").data), statusCode := 200,
        status := (("OK").data),
        headers := [((("Content-Length").data), (("2").data))],
        body := some (("hi").data),
        raw := (("HTTP/1.1 200 OK\r\nContent-Length: 2\r\n\r\nhi").data) }
      [] (by decide)).2.2.2⟩

/-- Claim C7 (confirmed): the minted leaf has NotBefore = now − 5 min,
NotAfter = now + 2 h, serial number the base-256 value of
SHA-256(domain ‖ timestamp) (positive whenever the hash has a nonzero
byte), Subject CN the clean domain (the part of the target before any
colon), SAN DNS names exactly the clean domain and its wildcard, key usage
digitalSignature+keyEncipherment, extended key usage serverAuth, basic
constraints present with CA = false, and it is signed by the Root CA's
private key with the Root CA's parsed leaf as parent. -/
theorem generateCertificate_spec (domain : Str) (now : Int)
    (sha : Str → List Nat) (ts : Str) (k : Nat) (ca : RootCA)
    (hsha : ∃ b ∈ sha (domain ++ ts), b ≠ 0) :
    (generateCertificate domain now sha ts k ca).tmpl.notBefore
        = now - 5 * 60 ∧
    (generateCertificate domain now sha ts k ca).tmpl.notAfter
        = now + 2 * 60 * 60 ∧
    (generateCertificate domain now sha ts k ca).tmpl.serialNumber
        = natOfBytesBE (sha (domain ++ ts)) ∧
    0 < (generateCertificate domain now sha ts k ca).tmpl.serialNumber ∧
    (generateCertificate domain now sha ts k ca).tmpl.subjectCN
        = domain.takeWhile (· != ':') ∧
    ':' ∉ (generateCertificate domain now sha ts k ca).tmpl.subjectCN ∧
    (generateCertificate domain now sha ts k ca).tmpl.dnsNames
        = [(generateCertificate domain now sha ts k ca).tmpl.subjectCN,
           '*' :: '.' ::
             (generateCertificate domain now sha ts k ca).tmpl.subjectCN] ∧
    (generateCertificate domain now sha ts k ca).tmpl.keyUsageDigitalSignature
        = true ∧
    (generateCertificate domain now sha ts k ca).tmpl.keyUsageKeyEncipherment
        = true ∧
    (generateCertificate domain now sha ts k ca).tmpl.extKeyUsageServerAuth
        = true ∧
    (generateCertificate domain now sha ts k ca).tmpl.basicConstraintsValid
        = true ∧
    (generateCertificate domain now sha ts k ca).tmpl.isCA = false ∧
    (generateCertificate domain now sha ts k ca).signingKeyId
        = ca.privateKeyId ∧
    (generateCertificate domain now sha ts k ca).parentId = ca.leafId := by
  refine ⟨rfl, rfl, rfl, natOfBytesBE_pos _ hsha, ?_, ?_, rfl, rfl, rfl,
    rfl, rfl, rfl, rfl, rfl⟩
  · exact goSplit_headD ':' domain
  · show ':' ∉ (goSplit ':' domain).headD []
    rw [goSplit_headD]
    intro hmem
    have := List.mem_takeWhile_imp hmem
    simp at this

/-- Claim C7 witness: instantiation at "example.com:443". -/
theorem generateCertificate_spec_witness :
    0 < (generateCertificate (("example.com:443").data) 0 (fun _ => [7])
        [] 0 ⟨0, 1, 2⟩).tmpl.serialNumber :=
  (generateCertificate_spec (("example.com:443").data) 0 (fun _ => [7])
    [] 0 ⟨0, 1, 2⟩ (by decide)).2.2.2.1

/-- Claim C10 (confirmed): when a parsed request leaves unconsumed input
(the body), the consumed bytes are exactly `raw` (request line + header
block through the terminating CRLF), the body remains unconsumed, and
every byte string the forwarder writes to the origin equals `raw` — body
bytes are never read from the client nor forwarded. -/
theorem request_body_not_consumed_or_forwarded (blFile : Option (List Str))
    (e : HTTPEnv) (s : Str) (req : HTTPRequest) (rest : Str)
    (h : parseRequest s = some (req, rest)) (hb : rest ≠ []) :
    req.raw ++ rest = s ∧
    (∀ d, Ev.writeOrigin d ∈ handleHTTPGo blFile e s → d = req.raw) := by
  refine ⟨(parseRequest_raw_spec s req rest h).2.1 hb, ?_⟩
  intro d hmem
  simp only [handleHTTPGo, h] at hmem
  by_cases hsb : shouldBlock blFile req.host
  · simp [hsb] at hmem
  · cases hdial : e.dialOk with
    | false => simp [hsb, hdial] at hmem
    | true =>
      cases horig : e.originWriteOk with
      | false =>
        simp [hsb, hdial, horig] at hmem
        exact hmem
      | true =>
        simp [hsb, hdial, horig] at hmem
        rcases hmem with hmem | hmem
        · exact hmem
        · exact absurd hmem (forwardResponseTrace_no_writeOrigin _ _)

/-- Claim C10 witness: concrete request with body "BODY". -/
theorem request_body_not_consumed_or_forwarded_witness :
    ({ method := (("GET").data), path := (("/").data),
       protocol := (("HTTP/1.1").data), port := (("80").data),
       host := [], userAgent := [], proxyConnection := [],
       raw := (("GET / HTTP/1.1\r\n\r\n").data) } : HTTPRequest).raw
      ++ (("BODY").data)
      = (("GET / HTTP/1.1\r\n\r\nBODY").data) :=
  (request_body_not_consumed_or_forwarded (some []) ⟨true, true, []⟩
    (("GET / HTTP/1.1\r\n\r\nBODY").data)
    { method := (("GET").data), path := (("/").data),
      protocol := (("HTTP/1.1").data), port := (("80").data),
      host := [], userAgent := [], proxyConnection := [],
      raw := (("GET / HTTP/1.1\r\n\r\n").data) }
    (("BODY").data) (by decide) (by decide)).1

theorem isBlockedIn_of_match (lines : List Str) (H host : Str)
    (hmem : H ∈ lines) (hne : trimSpace H ≠ [])
    (heq : eqFold host (trimSpace H) = true) :
    isBlockedIn lines host = true := by
  refine List.any_eq_true.mpr ⟨H, hmem, ?_⟩
  cases htr : trimSpace H with
  | nil => exact absurd htr hne
  | cons a l =>
    rw [htr] at heq
    simp [htr, heq]

/-- Claim C5 (confirmed): when an entry of the (readable) blocklist matches
the CONNECT domain or the plaintext Host case-insensitively, the handler
writes the 403 response and never dials the origin; moreover on both paths
a dial event can only occur when the blocklist check found no match — the
decision precedes any origin socket. -/
theorem blocklist_hit_403_no_dial
    (lines : List Str) (H : Str) (eM : MITMEnv) (eH : HTTPEnv)
    (sC sP : Str) (hmem : H ∈ lines) (hne : trimSpace H ≠ []) :
    (∀ target domain rest,
      processConnectRequest sC = some (target, domain, rest) →
      eqFold domain (trimSpace H) = true →
      Ev.writeClient (forbiddenResponse domain)
          ∈ handleHTTPS (some lines) eM sC ∧
      (∀ t, Ev.dialOrigin t ∉ handleHTTPS (some lines) eM sC)) ∧
    (∀ req rest,
      parseRequest sP = some (req, rest) →
      eqFold req.host (trimSpace H) = true →
      Ev.writeClient (forbiddenResponse req.host)
          ∈ handleHTTPGo (some lines) eH sP ∧
      (∀ t, Ev.dialOrigin t ∉ handleHTTPGo (some lines) eH sP)) ∧
    (∀ t target domain rest,
      processConnectRequest sC = some (target, domain, rest) →
      Ev.dialOrigin t ∈ handleHTTPS (some lines) eM sC →
      isBlockedIn lines domain = false) ∧
    (∀ t req rest,
      parseRequest sP = some (req, rest) →
      Ev.dialOrigin t ∈ handleHTTPGo (some lines) eH sP →
      isBlockedIn lines req.host = false) := by
  refine ⟨?_, ?_, ?_, ?_⟩
  · intro target domain rest hp heq
    have hblk := isBlockedIn_of_match lines H domain hmem hne heq
    constructor
    · simp [handleHTTPS, hp, shouldBlock, hblk]
    · intro t
      simp [handleHTTPS, hp, shouldBlock, hblk]
  · intro req rest hp heq
    have hblk := isBlockedIn_of_match lines H req.host hmem hne heq
    constructor
    · simp [handleHTTPGo, hp, shouldBlock, hblk]
    · intro t
      simp [handleHTTPGo, hp, shouldBlock, hblk]
  · intro t target domain rest hp hd
    cases hblk : isBlockedIn lines domain with
    | false => rfl
    | true =>
      simp [handleHTTPS, hp, shouldBlock, hblk] at hd
  · intro t req rest hp hd
    cases hblk : isBlockedIn lines req.host with
    | false => rfl
    | true =>
      simp [handleHTTPGo, hp, shouldBlock, hblk] at hd

/-- Claim C5 witness: blocked CONNECT to ads.test with blocklist entry
"ads.test". -/
theorem blocklist_hit_403_no_dial_witness :
    Ev.writeClient (forbiddenResponse (("ads.test").data))
      ∈ handleHTTPS (some [(("ads.test").data)])
          ⟨true, true, true, true, true, [], []⟩
          (("CONNECT ads.test:443 HTTP/1.1\r\n\r\n").data) :=
  ((blocklist_hit_403_no_dial [(("ads.test").data)] (("ads.test").data)
    ⟨true, true, true, true, true, [], []⟩ ⟨true, true, []⟩
    (("CONNECT ads.test:443 HTTP/1.1\r\n\r\n").data) []
    (by decide) (by decide)).1
    (("ads.test:443").data) (("ads.test").data) [] (by decide) (by decide)).1

/-- Claim C8 counterexample: a successfully dialed plaintext flow whose
trace contains the origin dial and the raw request write but arms no
30-second deadline on the origin connection, refuting the claim that the
forwarder arms one between dialing and writing. -/
theorem origin_deadline_missing_counterexample :
    Ev.dialOrigin (("example.test:80").data) ∈
      handleHTTPGo (some []) ⟨true, true, (("HTTP/1.1 200 OK\r\n\r\n").data)⟩
        (("GET / HTTP/1.1\r\nHost: example.test\r\n\r\n").data) ∧
    Ev.writeOrigin (("GET / HTTP/1.1\r\nHost: example.test\r\n\r\n").data) ∈
      handleHTTPGo (some []) ⟨true, true, (("HTTP/1.1 200 OK\r\n\r\n").data)⟩
        (("GET / HTTP/1.1\r\nHost: example.test\r\n\r\n").data) ∧
    Ev.setOriginDeadline 30 ∉
      handleHTTPGo (some []) ⟨true, true, (("HTTP/1.1 200 OK\r\n\r\n").data)⟩
        (("GET / HTTP/1.1\r\nHost: example.test\r\n\r\n").data) := by
  decide

/-- Claim C8 amended: the refactored plaintext forwarder arms no deadline
at all on the origin connection (its first action re-arms the 30-second
deadline on the client socket); the 30-second origin deadline exists only
in the legacy monolithic forwarder, which arms it right after dialing. -/
theorem no_origin_deadline_in_forwarder (blFile : Option (List Str))
    (e : HTTPEnv) (s : Str) (n : Nat) :
    Ev.setOriginDeadline n ∉ handleHTTPGo blFile e s ∧
    (handleHTTPGo blFile e s).head? = some (Ev.setClientDeadline 30) ∧
    (∀ req rest, parseRequest s = some (req, rest) → e.dialOk = true →
      Ev.setOriginDeadline 30 ∈ mainHandleHTTP e s) := by
  refine ⟨?_, ?_, ?_⟩
  · intro hmem
    simp only [handleHTTPGo] at hmem
    rcases hp : parseRequest s with _ | ⟨req, rest⟩
    · simp [hp] at hmem
    · rw [hp] at hmem
      by_cases hsb : shouldBlock blFile req.host
      · simp [hsb] at hmem
      · cases hdial : e.dialOk with
        | false => simp [hsb, hdial] at hmem
        | true =>
          cases horig : e.originWriteOk with
          | false => simp [hsb, hdial, horig] at hmem
          | true =>
            simp [hsb, hdial, horig] at hmem
            exact forwardResponseTrace_no_originDeadline _ _ hmem
  · simp [handleHTTPGo]
  · intro req rest hp hdial
    simp [mainHandleHTTP, hp, hdial]

/-- Claim C8 witness: instantiation at a plain GET. -/
theorem no_origin_deadline_in_forwarder_witness :
    Ev.setOriginDeadline 30 ∈
      mainHandleHTTP ⟨true, true, []⟩
        (("GET / HTTP/1.1\r\nHost: example.test\r\n\r\n").data) :=
  (no_origin_deadline_in_forwarder (some []) ⟨true, true, []⟩
    (("GET / HTTP/1.1\r\nHost: example.test\r\n\r\n").data) 30).2.2
    { method := (("GET").data), path := (("/").data),
      protocol := (("HTTP/1.1").data), port := (("80").data),
      host := (("example.test").data), userAgent := [], proxyConnection := [],
      raw := (("GET / HTTP/1.1\r\nHost: example.test\r\n\r\n").data) }
    [] (by decide) (by decide)

theorem count_close_tail (a : Ev) (l : List Ev) :
    1 ≤ (a :: (l ++ [Ev.closeClient])).count Ev.closeClient := by
  simp [List.count_cons, List.count_append]
  split <;> omega

/-- Claim C3 counterexample: on a blocked CONNECT flow the client socket is
closed twice (the deferred closes of `handleHTTPS` and `handleConnection`
both run), refuting "closed exactly once, never more than once". -/
theorem close_exactly_once_counterexample :
    (handleConnection (some [(("ads.test").data)])
        ⟨true, true, true, true, true, [], []⟩ ⟨true, true, []⟩
        (("CONNECT ads.test:443 HTTP/1.1\r\n\r\n").data)).count
      Ev.closeClient = 2 := by
  decide

/-- Claim C3 amended: on every exit path the client socket is closed at
least once (nested deferred closes may close it again), and every origin
connection that was successfully dialed is closed at least once. -/
theorem close_at_least_once (blFile : Option (List Str)) (eM : MITMEnv)
    (eH : HTTPEnv) (input : Str) :
    1 ≤ (handleConnection blFile eM eH input).count Ev.closeClient ∧
    (eH.dialOk = true →
      (∃ t, Ev.dialOrigin t ∈ handleHTTPGo blFile eH input) →
      1 ≤ (handleHTTPGo blFile eH input).count Ev.closeOrigin) ∧
    (eM.dialOk = true →
      (∃ t, Ev.dialOrigin t ∈ handleHTTPS blFile eM input) →
      1 ≤ (handleHTTPS blFile eM input).count Ev.closeOrigin) := by
  refine ⟨?_, ?_, ?_⟩
  · exact count_close_tail _ _
  · intro hdial ⟨t, hmem⟩
    rcases hp : parseRequest input with _ | ⟨req, rest⟩
    · simp [handleHTTPGo, hp] at hmem
    · by_cases hsb : shouldBlock blFile req.host
      · simp [handleHTTPGo, hp, hsb] at hmem
      · simp [handleHTTPGo, hp, hsb, hdial, List.count_cons,
          List.count_append]
  · intro hdial ⟨t, hmem⟩
    rcases hp : processConnectRequest input with _ | ⟨target, domain, rest⟩
    · simp [handleHTTPS, hp] at hmem
    · by_cases hsb : shouldBlock blFile domain
      · simp [handleHTTPS, hp, hsb] at hmem
      · cases h200 : eM.write200Ok with
        | false =>
          simp [handleHTTPS, hp, hsb, establishMITMTunnel, h200] at hmem
        | true =>
          cases hca : eM.caLoadOk with
          | false =>
            simp [handleHTTPS, hp, hsb, establishMITMTunnel, h200, hca] at hmem
          | true =>
            cases hcert : eM.certGenOk with
            | false =>
              simp [handleHTTPS, hp, hsb, establishMITMTunnel, h200, hca,
                hcert] at hmem
            | true =>
              cases hhs : eM.handshakeOk with
              | false =>
                simp [handleHTTPS, hp, hsb, establishMITMTunnel, h200, hca,
                  hcert, hhs] at hmem
              | true =>
                simp [handleHTTPS, hp, hsb, establishMITMTunnel, h200, hca,
                  hcert, hhs, hdial, tunnelConnections, List.count_cons,
                  List.count_append]

/-- Claim C3 witness: a successfully tunneled CONNECT flow closes the
dialed origin connection. -/
theorem close_at_least_once_witness :
    1 ≤ (handleHTTPS (some []) ⟨true, true, true, true, true, [], []⟩
        (("CONNECT api.test:443 HTTP/1.1\r\n\r\n").data)).count
      Ev.closeOrigin :=
  (close_at_least_once (some []) ⟨true, true, true, true, true, [], []⟩
    ⟨true, true, []⟩ (("CONNECT api.test:443 HTTP/1.1\r\n\r\n").data)).2.2
    rfl ⟨(("api.test:443").data), by decide⟩

/-- Claim C2 counterexample: in `tunnelConnections` the destination of the
finished client-to-origin copy is FULLY closed (no `CloseWrite` half-close
event exists), and the origin-to-client direction is not a raw byte copy:
with "hi" in flight from the origin (no header terminator yet), nothing at
all is delivered to the client. -/
theorem pump_full_close_counterexample :
    Ev.closeOrigin ∈ tunnelConnections (("x").data) (("hi").data) ∧
    Ev.closeWriteOrigin ∉ tunnelConnections (("x").data) (("hi").data) ∧
    Ev.closeWriteClient ∉ tunnelConnections (("x").data) (("hi").data) ∧
    clientDataWritten (tunnelConnections (("x").data) (("hi").data)) = [] ∧
    ((("hi").data : Str) ≠ []) := by
  decide

/-- Claim C2 amended: when one direction of `tunnelConnections` finishes it
FULLY closes its destination stream (origin after client-to-origin, client
after origin-to-client); the client-to-origin direction is a raw copy while
the origin-to-client direction first reads a header block — forwarding the
origin's bytes verbatim when one is found and nothing otherwise; the pump's
trace always contains both directions' copies and both closes. -/
theorem pump_structure (cs ss : Str) :
    tunnelConnections cs ss
      = [Ev.writeOrigin cs, Ev.closeOrigin]
          ++ forwardServerResponseTrace ss ++ [Ev.closeClient] ∧
    Ev.closeWriteOrigin ∉ tunnelConnections cs ss ∧
    Ev.closeWriteClient ∉ tunnelConnections cs ss ∧
    (∀ h r, readServerResponse ss = some (h, r) →
      clientDataWritten (tunnelConnections cs ss) = ss) ∧
    (readServerResponse ss = none →
      clientDataWritten (tunnelConnections cs ss) = []) ∧
    Ev.closeOrigin ∈ tunnelConnections cs ss ∧
    Ev.closeClient ∈ tunnelConnections cs ss := by
  refine ⟨rfl, ?_, ?_, ?_, ?_, ?_, ?_⟩
  · rcases hr : readServerResponse ss with _ | ⟨h, r⟩ <;>
      simp [tunnelConnections, forwardServerResponseTrace, hr]
  · rcases hr : readServerResponse ss with _ | ⟨h, r⟩ <;>
      simp [tunnelConnections, forwardServerResponseTrace, hr]
  · intro h r hr
    have := readServerResponse_append ss h r hr
    simp [tunnelConnections, forwardServerResponseTrace, hr,
      clientDataWritten, this]
  · intro hr
    simp [tunnelConnections, forwardServerResponseTrace, hr,
      clientDataWritten]
  · simp [tunnelConnections]
  · simp [tunnelConnections]

/-- Claim C2 witness: a complete origin response is delivered verbatim. -/
theorem pump_structure_witness :
    clientDataWritten (tunnelConnections (("x").data)
        (("HTTP/1.1 200 OK\r\n\r\nhi").data))
      = (("HTTP/1.1 200 OK\r\n\r\nhi").data) :=
  (pump_structure (("x").data) (("HTTP/1.1 200 OK\r\n\r\nhi").data)).2.2.2.1
    (("HTTP/1.1 200 OK\r\n\r\n").data) (("hi").data) (by decide)

/-- Claim C1 counterexample: an MITM CONNECT flow whose origin TLS dial
fails never writes 502 Bad Gateway, and the 200 Connection Established HAS
already been sent (it precedes the dial), refuting both parts of the
claim. -/
theorem connect_dial_failure_counterexample :
    Ev.writeClient badGateway502 ∉
      handleHTTPS (some []) ⟨true, true, true, true, false, [], []⟩
        (("CONNECT unreachable.test:443 HTTP/1.1\r\n\r\n").data) ∧
    Ev.writeClient connEstablished ∈
      handleHTTPS (some []) ⟨true, true, true, true, false, [], []⟩
        (("CONNECT unreachable.test:443 HTTP/1.1\r\n\r\n").data) := by
  decide

/-- Claim C1 amended: in the MITM CONNECT path the 200 Connection
Established is written BEFORE the origin TLS dial; on dial failure nothing
further is written (no 502) and the connection is closed, the whole trace
being exactly 200-write, dial, close.  The 502-before-200 behavior the
claim describes exists only in the legacy monolithic raw-tunnel handler,
whose failed-dial trace is exactly dial then 502-write. -/
theorem connect_dial_failure_behavior (blFile : Option (List Str))
    (e : MITMEnv) (s target domain rest : Str) (e2 : MainEnv)
    (hp : processConnectRequest s = some (target, domain, rest))
    (hsb : shouldBlock blFile domain = false)
    (h200 : e.write200Ok = true) (hca : e.caLoadOk = true)
    (hcert : e.certGenOk = true) (hhs : e.handshakeOk = true)
    (hdial : e.dialOk = false) (hdial2 : e2.dialOk = false) :
    handleHTTPS blFile e s
      = [Ev.writeClient connEstablished, Ev.dialOrigin target,
         Ev.closeClient] ∧
    Ev.writeClient badGateway502 ∉ handleHTTPS blFile e s ∧
    mainHandleHTTPS e2 s
      = [Ev.dialOrigin target, Ev.writeClient badGateway502] ∧
    Ev.writeClient connEstablished ∉ mainHandleHTTPS e2 s := by
  have htrace : handleHTTPS blFile e s
      = [Ev.writeClient connEstablished, Ev.dialOrigin target,
         Ev.closeClient] := by
    simp [handleHTTPS, hp, hsb, establishMITMTunnel, h200, hca, hcert,
      hhs, hdial]
  have htrace2 : mainHandleHTTPS e2 s
      = [Ev.dialOrigin target, Ev.writeClient badGateway502] := by
    simp [mainHandleHTTPS, hp, hdial2]
  refine ⟨htrace, ?_, htrace2, ?_⟩
  · rw [htrace]
    simp [show badGateway502 ≠ connEstablished by decide]
  · rw [htrace2]
    simp [show connEstablished ≠ badGateway502 by decide]

/-- Claim C1 witness: instantiation at a CONNECT to unreachable.test. -/
theorem connect_dial_failure_behavior_witness :
    handleHTTPS (some []) ⟨true, true, true, true, false, [], []⟩
        (("CONNECT unreachable.test:443 HTTP/1.1\r\n\r\n").data)
      = [Ev.writeClient connEstablished,
         Ev.dialOrigin (("unreachable.test:443").data), Ev.closeClient] :=
  (connect_dial_failure_behavior (some [])
    ⟨true, true, true, true, false, [], []⟩
    (("CONNECT unreachable.test:443 HTTP/1.1\r\n\r\n").data)
    (("unreachable.test:443").data) (("unreachable.test").data) []
    ⟨false, true, [], []⟩ (by decide) (by decide) rfl rfl rfl rfl rfl
    rfl).1
